import Mathlib

/-!
Verification of the `junit-parser` crate of the `ratunit` repository.

The Rust source (`crates/junit-parser/src/lib.rs`) is embedded shallowly:

* Rust `String`/`&str` values are embedded as `List Char` (Rust strings are
  UTF-8; byte-wise comparison of UTF-8 strings coincides with code-point
  order, so `List Char` with code-point comparisons is faithful for every
  ordering claim below).
* Rust `u64` counters are embedded as `Nat`.  The arithmetic the claims are
  about is `u64::saturating_sub`, which on `Nat` is exactly truncated
  subtraction; `u64` addition overflow traps in checked builds and is not
  modelled.
* Fallible operations return `Option`.
* The XML deserialization performed by the external `quick_xml` crate is
  modelled from the specification's mapping rules (see the doc comments of
  the tokenizer/deserializer section below); everything else is translated
  directly from the Rust source.
-/

namespace Ratunit

/-- `TestStatus` from the source: the four-variant outcome of a test case. -/
inductive TestStatus where
  | Passed
  | Failed
  | Errored
  | Skipped
deriving DecidableEq, Repr

/-- `Failure` from the source: optional `@message` attribute and optional
`$text` body. -/
structure Failure where
  message : Option (List Char) := none
  body : Option (List Char) := none
deriving DecidableEq, Repr

/-- `TestError` from the source: optional `@message` attribute and optional
`$text` body. -/
structure TestError where
  message : Option (List Char) := none
  body : Option (List Char) := none
deriving DecidableEq, Repr

/-- `Skipped` from the source: optional `$text` message. -/
structure Skipped where
  message : Option (List Char) := none
deriving DecidableEq, Repr

/-- `Property` from the source: required `@name` and `@value` attributes. -/
structure Property where
  name : List Char
  value : List Char
deriving DecidableEq, Repr

/-- `Properties` from the source: the list of `property` children. -/
structure Properties where
  properties : List Property := []
deriving DecidableEq, Repr

/-- `TestCase` from the source.  The `@time` attribute is an `f64` in the
source; no claim concerns its numeric value, so its raw attribute text is
kept instead of a floating-point number. -/
structure TestCase where
  classname : Option (List Char) := none
  name : List Char := []
  time : Option (List Char) := none
  file : Option (List Char) := none
  failure : Option Failure := none
  error : Option TestError := none
  skipped : Option Skipped := none
  system_out : Option (List Char) := none
  system_err : Option (List Char) := none
deriving DecidableEq, Repr

/-- `TestCase::status` from the source: first-match precedence
failure → error → skipped → passed. -/
def TestCase.status (tc : TestCase) : TestStatus :=
  if tc.failure.isSome then TestStatus.Failed
  else if tc.error.isSome then TestStatus.Errored
  else if tc.skipped.isSome then TestStatus.Skipped
  else TestStatus.Passed

/-- `TestSuite` from the source.  `@tests`/`@failures`/`@errors` are
`u64` with serde `default` (absent attribute ↦ 0); `@skipped` is
`Option<u64>`; `@time` is kept as raw text (see `TestCase`). -/
structure TestSuite where
  name : List Char := []
  timestamp : Option (List Char) := none
  time : Option (List Char) := none
  tests : Nat := 0
  failures : Nat := 0
  errors : Nat := 0
  skipped : Option Nat := none
  properties : Option Properties := none
  test_cases : List TestCase := []
deriving DecidableEq, Repr

/-- `TestSuites` from the source: the report root, with optional declared
totals and the list of `testsuite` children. -/
structure TestSuites where
  tests : Option Nat := none
  failures : Option Nat := none
  errors : Option Nat := none
  skipped : Option Nat := none
  suites : List TestSuite := []
deriving DecidableEq, Repr

/-- `TestSuites::total_tests` from the source. -/
def TestSuites.total_tests (ts : TestSuites) : Nat :=
  (ts.suites.map (fun s => s.tests)).sum

/-- `TestSuites::total_failures` from the source. -/
def TestSuites.total_failures (ts : TestSuites) : Nat :=
  (ts.suites.map (fun s => s.failures)).sum

/-- `TestSuites::total_errors` from the source. -/
def TestSuites.total_errors (ts : TestSuites) : Nat :=
  (ts.suites.map (fun s => s.errors)).sum

/-- `TestSuites::total_skipped` from the source: suite-level `skipped`
attributes with absence treated as zero. -/
def TestSuites.total_skipped (ts : TestSuites) : Nat :=
  (ts.suites.map (fun s => s.skipped.getD 0)).sum

/-- `TestSuites::total_passed` from the source: `u64::saturating_sub` is
exactly `Nat` truncated subtraction. -/
def TestSuites.total_passed (ts : TestSuites) : Nat :=
  let total := ts.total_tests
  let non_pass := ts.total_failures + ts.total_errors + ts.total_skipped
  total - non_pass

/-- Spec-side summation (from the spec's words, for the refinement claim C2):
the straight sum of the `tests` field over a suite list. -/
def specSumTests : List TestSuite → Nat
  | [] => 0
  | s :: rest => s.tests + specSumTests rest

/-- Spec-side summation of the `failures` field (see `specSumTests`). -/
def specSumFailures : List TestSuite → Nat
  | [] => 0
  | s :: rest => s.failures + specSumFailures rest

/-- Spec-side summation of the `errors` field (see `specSumTests`). -/
def specSumErrors : List TestSuite → Nat
  | [] => 0
  | s :: rest => s.errors + specSumErrors rest

/-- Spec-side summation of the `skipped` field, absence as zero
(see `specSumTests`). -/
def specSumSkipped : List TestSuite → Nat
  | [] => 0
  | s :: rest => s.skipped.getD 0 + specSumSkipped rest

/-- Sample report with over-declared failure counts (for witnesses). -/
def overDeclaredReport : TestSuites :=
  { suites := [{ tests := 2, failures := 3 }] }

/-- Sample report with declared wrapper totals (for witnesses). -/
def declaredJunkReport : TestSuites :=
  { tests := some 7, failures := some 7, errors := some 7, skipped := some 7,
    suites := [{ tests := 3, failures := 1 }] }

/-- Same suite list as `declaredJunkReport` but without declared totals. -/
def undeclaredReport : TestSuites :=
  { suites := [{ tests := 3, failures := 1 }] }

/-- A test case whose only marker is a Skipped element with no message. -/
def skippedOnlyCase : TestCase :=
  { skipped := some { message := none } }

/-- A suite with no `skipped` attribute containing only `skippedOnlyCase`. -/
def skippedOnlySuite : TestSuite :=
  { tests := 1, skipped := none, test_cases := [skippedOnlyCase] }

/-- A report containing only `skippedOnlySuite`. -/
def skippedOnlyReport : TestSuites :=
  { suites := [skippedOnlySuite] }

/-- Embedding of Rust `str::trim_start` (leading-whitespace removal). -/
def trimStartChars (cs : List Char) : List Char :=
  cs.dropWhile Char.isWhitespace

/-- Embedding of Rust `str::starts_with`: `strStartsWith s p` holds when `p`
is a prefix of `s`. -/
def strStartsWith : List Char → List Char → Bool
  | _, [] => true
  | [], _ :: _ => false
  | c :: s, p :: ps => if c = p then strStartsWith s ps else false

/-- Embedding of Rust `str::find(char)`: index of the first occurrence. -/
def findChar (target : Char) : List Char → Option Nat
  | [] => none
  | c :: rest => if c = target then some 0 else (findChar target rest).map (· + 1)

/-- The literal `"<testsuite "` from the source's detection code. -/
def tsOpenSpace : List Char :=
  ['<', 't', 'e', 's', 't', 's', 'u', 'i', 't', 'e', ' ']

/-- The literal `"<testsuite>"` from the source's detection code. -/
def tsOpenGt : List Char :=
  ['<', 't', 'e', 's', 't', 's', 'u', 'i', 't', 'e', '>']

/-- The `root_is_testsuite` detection expression from `parse_str` in the
source: after trimming leading whitespace, either the text starts with
`"<testsuite "`/`"<testsuite>"`, or it starts with `"<?"` and the text from
the second `<` onward starts with one of those two literals. -/
def root_is_testsuite (xml : List Char) : Bool :=
  let trimmed := trimStartChars xml
  (strStartsWith trimmed ['<', '?'] &&
    (match (findChar '<' trimmed).bind
        (fun i => (findChar '<' (trimmed.drop (i + 1))).map (fun j => i + 1 + j)) with
     | some k =>
         strStartsWith (trimmed.drop k) tsOpenSpace ||
           strStartsWith (trimmed.drop k) tsOpenGt
     | none => false))
  || strStartsWith trimmed tsOpenSpace || strStartsWith trimmed tsOpenGt

/-- Helper for the spec-side tag reader: drop everything up to and including
the first `?>` (the end of an XML declaration/prolog). -/
def skipPastPrologClose : List Char → List Char
  | [] => []
  | c :: rest =>
    if c = '?' ∧ rest.head? = some '>' then rest.tail
    else skipPastPrologClose rest

/-- Spec-side definition (from the claim's words, for the refinement claim
C8): the name of the first element tag found after optional leading
whitespace and an optional XML declaration/prolog. -/
def specFirstElementTag (xml : List Char) : Option (List Char) :=
  let t := trimStartChars xml
  let t2 :=
    if strStartsWith t ['<', '?'] then
      trimStartChars (skipPastPrologClose (t.drop 2))
    else t
  match t2 with
  | c :: rest =>
      if c = '<' then
        some (rest.takeWhile
          (fun c' => !c'.isWhitespace && decide (c' ≠ '>') && decide (c' ≠ '/')))
      else none
  | [] => none

/-!
Modelled from the spec: the XML reading performed by `quick_xml::de` for
the serde-derived structs.  The spec fixes the mapping rules (§4.1): all
declared attributes optional unless required-with-default, free-text child
elements captured whether delivered as literal escaped text or as a CDATA
section, `message` attribute and inner body distinct, unrecognized
elements/attributes ignored.  The model below is a character-level
tokenizer (a one-character-per-step automaton), a token normalizer that
makes escaped text and CDATA indistinguishable, a tree builder, and field
mappers following the `#[serde(...)]` attributes in the source.
-/

/-- XML-escape one character (the five standard entities). -/
def escapeChar (c : Char) : List Char :=
  if c = '<' then ['&', 'l', 't', ';']
  else if c = '>' then ['&', 'g', 't', ';']
  else if c = '&' then ['&', 'a', 'm', 'p', ';']
  else if c = '\'' then ['&', 'a', 'p', 'o', 's', ';']
  else if c = '"' then ['&', 'q', 'u', 'o', 't', ';']
  else [c]

/-- XML-escape a character sequence (how a producer delivers it as literal
escaped text). -/
def escapeList : List Char → List Char
  | [] => []
  | c :: rest => escapeChar c ++ escapeList rest

/-- Modelled from the spec: entity unescaping of textual content, as
`quick_xml` performs it.  Unknown entities are an error. -/
def unescape : List Char → Option (List Char)
  | [] => some []
  | c :: rest =>
    if c = '&' then
      match rest with
      | c1 :: c2 :: c3 :: r3 =>
        if c1 = 'l' ∧ c2 = 't' ∧ c3 = ';' then
          (unescape r3).map (fun u => '<' :: u)
        else if c1 = 'g' ∧ c2 = 't' ∧ c3 = ';' then
          (unescape r3).map (fun u => '>' :: u)
        else
          match r3 with
          | c4 :: r4 =>
            if c1 = 'a' ∧ c2 = 'm' ∧ c3 = 'p' ∧ c4 = ';' then
              (unescape r4).map (fun u => '&' :: u)
            else
              match r4 with
              | c5 :: r5 =>
                if c1 = 'a' ∧ c2 = 'p' ∧ c3 = 'o' ∧ c4 = 's' ∧ c5 = ';' then
                  (unescape r5).map (fun u => '\'' :: u)
                else if c1 = 'q' ∧ c2 = 'u' ∧ c3 = 'o' ∧ c4 = 't' ∧ c5 = ';' then
                  (unescape r5).map (fun u => '"' :: u)
                else none
              | [] => none
          | [] => none
      | _ => none
    else (unescape rest).map (fun u => c :: u)

/-- Raw XML tokens produced by the tokenizer. -/
inductive RawTok where
  | prologTok : RawTok
  | openTok : List Char → List (List Char × List Char) → Bool → RawTok
  | closeTok : List Char → RawTok
  | textTok : List Char → RawTok
  | cdataTok : List Char → RawTok
deriving DecidableEq, Repr

/-- Tokenizer automaton state: accumulating text, inside a tag (with an
optional active quote), or inside a CDATA section (with the count of
pending `]` characters, saturated at 2). -/
inductive TkMode where
  | text : List Char → TkMode
  | tag : List Char → Option Char → TkMode
  | cdata : List Char → Nat → TkMode
deriving DecidableEq, Repr

/-- The reversed characters `![CDATA` that, followed by `[`, start a CDATA
section inside an opening `<`. -/
def cdataStamp : List Char := ['A', 'T', 'A', 'D', 'C', '[', '!']

/-- `true` when the character sequence contains the CDATA terminator
`]]>`. -/
def containsCDEnd : List Char → Bool
  | [] => false
  | c :: rest =>
    (decide (c = ']') && decide (rest.take 2 = [']', '>'])) || containsCDEnd rest

/-- Modelled from the spec: attribute parsing inside a tag
(`name="value"` or `name='value'` pairs, values unescaped), fueled. -/
def parseAttrs : Nat → List Char → Option (List (List Char × List Char))
  | 0, _ => none
  | fuel + 1, cs =>
    let cs1 := cs.dropWhile Char.isWhitespace
    if cs1 = [] then some []
    else
      let n := cs1.takeWhile (fun c => !c.isWhitespace && decide (c ≠ '='))
      if n = [] then none
      else
        let r1 := (cs1.drop n.length).dropWhile Char.isWhitespace
        match r1 with
        | eqc :: r2 =>
          if eqc = '=' then
            let r3 := r2.dropWhile Char.isWhitespace
            match r3 with
            | q :: r4 =>
              if q = '"' ∨ q = '\'' then
                let v := r4.takeWhile (fun c => decide (c ≠ q))
                match r4.drop v.length with
                | _ :: r5 =>
                  match unescape v with
                  | some uv =>
                    (parseAttrs fuel r5).map (fun rest => (n, uv) :: rest)
                  | none => none
                | [] => none
              else none
            | [] => none
          else none
        | [] => none

/-- Classify the characters accumulated between `<` and `>` as a prolog,
closing tag, or opening tag (possibly self-closing) with parsed
attributes; comments and doctypes are not modelled. -/
def classifyTag (cs : List Char) : Option RawTok :=
  match cs with
  | [] => none
  | c :: rest =>
    if c = '?' then some RawTok.prologTok
    else if c = '/' then
      some (RawTok.closeTok (rest.takeWhile (fun c' => !c'.isWhitespace)))
    else if c = '!' then none
    else
      let selfClose : Bool := decide (cs.getLast? = some '/')
      let body := if selfClose then cs.dropLast else cs
      let nm := body.takeWhile (fun c' => !c'.isWhitespace && decide (c' ≠ '/'))
      if nm = [] then none
      else
        match parseAttrs (body.length + 1) (body.drop nm.length) with
        | some attrs => some (RawTok.openTok nm attrs selfClose)
        | none => none

/-- The tokenizer: a one-character-per-step automaton over the input. -/
def tokGo : TkMode → List Char → Option (List RawTok)
  | TkMode.text acc, [] =>
    some (if acc = [] then [] else [RawTok.textTok acc.reverse])
  | TkMode.tag _ _, [] => none
  | TkMode.cdata _ _, [] => none
  | TkMode.text acc, c :: rest =>
    if c = '<' then
      if acc = [] then tokGo (TkMode.tag [] none) rest
      else (tokGo (TkMode.tag [] none) rest).map
        (fun ts => RawTok.textTok acc.reverse :: ts)
    else tokGo (TkMode.text (c :: acc)) rest
  | TkMode.tag acc none, c :: rest =>
    if c = '>' then
      match classifyTag acc.reverse with
      | some tk => (tokGo (TkMode.text []) rest).map (fun ts => tk :: ts)
      | none => none
    else if c = '[' ∧ acc = cdataStamp then tokGo (TkMode.cdata [] 0) rest
    else if c = '"' ∨ c = '\'' then tokGo (TkMode.tag (c :: acc) (some c)) rest
    else tokGo (TkMode.tag (c :: acc) none) rest
  | TkMode.tag acc (some q), c :: rest =>
    if c = q then tokGo (TkMode.tag (c :: acc) none) rest
    else tokGo (TkMode.tag (c :: acc) (some q)) rest
  | TkMode.cdata acc p, c :: rest =>
    if c = ']' then
      if p = 2 then tokGo (TkMode.cdata (']' :: acc) 2) rest
      else tokGo (TkMode.cdata acc (p + 1)) rest
    else if c = '>' then
      if p = 2 then
        (tokGo (TkMode.text []) rest).map
          (fun ts => RawTok.cdataTok acc.reverse :: ts)
      else tokGo (TkMode.cdata ('>' :: (List.replicate p ']' ++ acc)) 0) rest
    else tokGo (TkMode.cdata (c :: (List.replicate p ']' ++ acc)) 0) rest

/-- Token normalization: escaped text and CDATA both become plain text
tokens; this is where the two delivery forms become indistinguishable. -/
def normTok : RawTok → Option RawTok
  | RawTok.textTok s => (unescape s).map RawTok.textTok
  | RawTok.cdataTok s => some (RawTok.textTok s)
  | RawTok.prologTok => some RawTok.prologTok
  | RawTok.openTok n a sc => some (RawTok.openTok n a sc)
  | RawTok.closeTok n => some (RawTok.closeTok n)

/-- Monadic map over `Option`, written out for easy induction. -/
def optionMapM (f : α → Option β) : List α → Option (List β)
  | [] => some []
  | a :: rest =>
    match f a with
    | some b => (optionMapM f rest).map (fun bs => b :: bs)
    | none => none

/-- An XML tree node: an element with attributes and children, or text
(CDATA already normalized into text). -/
inductive XmlNode where
  | elem : List Char → List (List Char × List Char) → List XmlNode → XmlNode
  | txt : List Char → XmlNode

/-- A node that is text consisting only of whitespace. -/
def isWsTxtNode : XmlNode → Bool
  | XmlNode.txt s => s.all Char.isWhitespace
  | _ => false

/-- Build a sibling list of nodes from normalized tokens, stopping at a
closing tag; fueled (the token-list length suffices). -/
def buildNodes : Nat → List RawTok → Option (List XmlNode × List RawTok)
  | 0, _ => none
  | _ + 1, [] => some ([], [])
  | fuel + 1, tk :: rest =>
    match tk with
    | RawTok.closeTok nm => some ([], RawTok.closeTok nm :: rest)
    | RawTok.textTok s =>
      (buildNodes fuel rest).map (fun p => (XmlNode.txt s :: p.1, p.2))
    | RawTok.openTok nm attrs true =>
      (buildNodes fuel rest).map (fun p => (XmlNode.elem nm attrs [] :: p.1, p.2))
    | RawTok.openTok nm attrs false =>
      match buildNodes fuel rest with
      | some (children, rem) =>
        match rem with
        | RawTok.closeTok nm' :: rem2 =>
          if nm' = nm then
            (buildNodes fuel rem2).map
              (fun p => (XmlNode.elem nm attrs children :: p.1, p.2))
          else none
        | _ => none
      | none => none
    | _ => none

/-- Skip the document head: prolog tokens and whitespace-only text before
the root element. -/
def skipDocHead : List RawTok → List RawTok
  | [] => []
  | RawTok.prologTok :: rest => skipDocHead rest
  | RawTok.textTok s :: rest =>
    if s.all Char.isWhitespace then skipDocHead rest else RawTok.textTok s :: rest
  | toks => toks

/-- Extract the unique root element from normalized tokens (whitespace-only
text around it is tolerated). -/
def buildRoot (toks : List RawTok) : Option XmlNode :=
  let t := skipDocHead toks
  match buildNodes (t.length + 1) t with
  | some (nodes, []) =>
    match nodes.filter (fun n => !isWsTxtNode n) with
    | [XmlNode.elem nm attrs children] => some (XmlNode.elem nm attrs children)
    | _ => none
  | _ => none

/-- Modelled from the spec: parse a whole document's text into its root
element (tokenize, normalize text/CDATA, build the tree). -/
def parseDocument (xml : List Char) : Option XmlNode :=
  match tokGo (TkMode.text []) xml with
  | some rtoks =>
    match optionMapM normTok rtoks with
    | some toks => buildRoot toks
    | none => none
  | none => none

/-- The attribute/element names used by the serde field mappings. -/
def nmTests : List Char := ['t', 'e', 's', 't', 's']

/-- Attribute name `failures`. -/
def nmFailures : List Char := ['f', 'a', 'i', 'l', 'u', 'r', 'e', 's']

/-- Attribute name `errors`. -/
def nmErrors : List Char := ['e', 'r', 'r', 'o', 'r', 's']

/-- Attribute/element name `skipped`. -/
def nmSkipped : List Char := ['s', 'k', 'i', 'p', 'p', 'e', 'd']

/-- Element name `testsuite`. -/
def nmTestsuite : List Char := ['t', 'e', 's', 't', 's', 'u', 'i', 't', 'e']

/-- Element name `testcase`. -/
def nmTestcase : List Char := ['t', 'e', 's', 't', 'c', 'a', 's', 'e']

/-- Element name `failure`. -/
def nmFailure : List Char := ['f', 'a', 'i', 'l', 'u', 'r', 'e']

/-- Element name `error`. -/
def nmError : List Char := ['e', 'r', 'r', 'o', 'r']

/-- Element name `properties`. -/
def nmProperties : List Char :=
  ['p', 'r', 'o', 'p', 'e', 'r', 't', 'i', 'e', 's']

/-- Element name `property`. -/
def nmProperty : List Char := ['p', 'r', 'o', 'p', 'e', 'r', 't', 'y']

/-- Attribute name `name`. -/
def nmName : List Char := ['n', 'a', 'm', 'e']

/-- Attribute name `value`. -/
def nmValue : List Char := ['v', 'a', 'l', 'u', 'e']

/-- Attribute name `classname`. -/
def nmClassname : List Char := ['c', 'l', 'a', 's', 's', 'n', 'a', 'm', 'e']

/-- Attribute name `time`. -/
def nmTime : List Char := ['t', 'i', 'm', 'e']

/-- Attribute name `timestamp`. -/
def nmTimestamp : List Char := ['t', 'i', 'm', 'e', 's', 't', 'a', 'm', 'p']

/-- Attribute name `file`. -/
def nmFile : List Char := ['f', 'i', 'l', 'e']

/-- Attribute name `message`. -/
def nmMessage : List Char := ['m', 'e', 's', 's', 'a', 'g', 'e']

/-- Element name `system-out`. -/
def nmSystemOut : List Char :=
  ['s', 'y', 's', 't', 'e', 'm', '-', 'o', 'u', 't']

/-- Element name `system-err`. -/
def nmSystemErr : List Char :=
  ['s', 'y', 's', 't', 'e', 'm', '-', 'e', 'r', 'r']

/-- First attribute with the given name (first match wins). -/
def lookupAttr (nm : List Char) :
    List (List Char × List Char) → Option (List Char)
  | [] => none
  | (k, v) :: rest => if k = nm then some v else lookupAttr nm rest

/-- Numeric value of a digit string (most significant first). -/
def digitsToNat (cs : List Char) : Nat :=
  cs.foldl (fun a c => a * 10 + (c.toNat - 48)) 0

/-- Modelled from the spec: `u64` attribute-value parsing (digits with an
optional leading `+`, value below `2^64`). -/
def parseU64 (cs : List Char) : Option Nat :=
  let ds := match cs with
    | c :: rest => if c = '+' then rest else cs
    | [] => cs
  if ds ≠ [] ∧ ds.all Char.isDigit ∧ digitsToNat ds < 2 ^ 64 then
    some (digitsToNat ds)
  else none

/-- A `u64` serde field with `default`: absent attribute yields 0, a present
attribute must parse. -/
def reqU64Attr (nm : List Char) (attrs : List (List Char × List Char)) :
    Option Nat :=
  match lookupAttr nm attrs with
  | none => some 0
  | some v => parseU64 v

/-- An `Option<u64>` serde field: absent attribute yields `none`, a present
attribute must parse. -/
def optU64Attr (nm : List Char) (attrs : List (List Char × List Char)) :
    Option (Option Nat) :=
  match lookupAttr nm attrs with
  | none => some none
  | some v => (parseU64 v).map some

/-- The text payloads among a node list. -/
def xmlTexts : List XmlNode → List (List Char)
  | [] => []
  | XmlNode.txt s :: rest => s :: xmlTexts rest
  | _ :: rest => xmlTexts rest

/-- The `$text` content of an element: concatenation of its text children,
`none` when there is no text. -/
def textContentOf (children : List XmlNode) : Option (List Char) :=
  let t := (xmlTexts children).flatten
  if t = [] then none else some t

/-- The (attributes, children) of the child elements with a given name, in
document order. -/
def elemPairsNamed (nm : List Char) :
    List XmlNode → List (List (List Char × List Char) × List XmlNode)
  | [] => []
  | XmlNode.elem n a c :: rest =>
    if n = nm then (a, c) :: elemPairsNamed nm rest else elemPairsNamed nm rest
  | _ :: rest => elemPairsNamed nm rest

/-- The first child element with a given name. -/
def firstChildNamed (nm : List Char) (children : List XmlNode) :
    Option (List (List Char × List Char) × List XmlNode) :=
  match elemPairsNamed nm children with
  | [] => none
  | p :: _ => some p

/-- Field mapping for `Failure` (`@message`, `$text`). -/
def fromElemFailure (attrs : List (List Char × List Char))
    (children : List XmlNode) : Failure :=
  { message := lookupAttr nmMessage attrs, body := textContentOf children }

/-- Field mapping for `TestError` (`@message`, `$text`). -/
def fromElemTestError (attrs : List (List Char × List Char))
    (children : List XmlNode) : TestError :=
  { message := lookupAttr nmMessage attrs, body := textContentOf children }

/-- Field mapping for `Skipped` (`$text`). -/
def fromElemSkipped (_attrs : List (List Char × List Char))
    (children : List XmlNode) : Skipped :=
  { message := textContentOf children }

/-- Field mapping for `Property` (`@name`, `@value`, both required). -/
def fromElemProperty (attrs : List (List Char × List Char)) :
    Option Property :=
  match lookupAttr nmName attrs, lookupAttr nmValue attrs with
  | some n, some v => some { name := n, value := v }
  | _, _ => none

/-- Field mapping for `Properties` (the `property` children). -/
def fromElemProperties (children : List XmlNode) : Option Properties :=
  (optionMapM (fun p => fromElemProperty p.1)
    (elemPairsNamed nmProperty children)).map
    (fun ps => { properties := ps })

/-- Field mapping for `TestCase` (attributes plus the optional
failure/error/skipped/system-out/system-err children). -/
def fromElemTestCase (attrs : List (List Char × List Char))
    (children : List XmlNode) : TestCase :=
  { classname := lookupAttr nmClassname attrs,
    name := (lookupAttr nmName attrs).getD [],
    time := lookupAttr nmTime attrs,
    file := lookupAttr nmFile attrs,
    failure := (firstChildNamed nmFailure children).map
      (fun p => fromElemFailure p.1 p.2),
    error := (firstChildNamed nmError children).map
      (fun p => fromElemTestError p.1 p.2),
    skipped := (firstChildNamed nmSkipped children).map
      (fun p => fromElemSkipped p.1 p.2),
    system_out := (firstChildNamed nmSystemOut children).bind
      (fun p => textContentOf p.2),
    system_err := (firstChildNamed nmSystemErr children).bind
      (fun p => textContentOf p.2) }

/-- Field mapping for `TestSuite`: defaulted `u64` counters, optional
`skipped`, optional `properties`, the `testcase` children. -/
def fromElemTestSuite (attrs : List (List Char × List Char))
    (children : List XmlNode) : Option TestSuite :=
  match reqU64Attr nmTests attrs, reqU64Attr nmFailures attrs,
      reqU64Attr nmErrors attrs, optU64Attr nmSkipped attrs,
      (match firstChildNamed nmProperties children with
       | none => some none
       | some p => (fromElemProperties p.2).map some) with
  | some tests, some failures, some errors, some skipped, some properties =>
    some { name := (lookupAttr nmName attrs).getD [],
           timestamp := lookupAttr nmTimestamp attrs,
           time := lookupAttr nmTime attrs,
           tests := tests, failures := failures, errors := errors,
           skipped := skipped, properties := properties,
           test_cases := (elemPairsNamed nmTestcase children).map
             (fun p => fromElemTestCase p.1 p.2) }
  | _, _, _, _, _ => none

/-- Field mapping for `TestSuites`: optional declared totals, the
`testsuite` children. -/
def fromElemTestSuites (attrs : List (List Char × List Char))
    (children : List XmlNode) : Option TestSuites :=
  match optU64Attr nmTests attrs, optU64Attr nmFailures attrs,
      optU64Attr nmErrors attrs, optU64Attr nmSkipped attrs,
      optionMapM (fun p => fromElemTestSuite p.1 p.2)
        (elemPairsNamed nmTestsuite children) with
  | some tests, some failures, some errors, some skipped, some suites =>
    some { tests := tests, failures := failures, errors := errors,
           skipped := skipped, suites := suites }
  | _, _, _, _, _ => none

/-- `quick_xml::de::from_str::<TestSuite>` modelled: parse the document and
map its root element (the root tag name is not checked, as in serde). -/
def deTestSuite (xml : List Char) : Option TestSuite :=
  match parseDocument xml with
  | some (XmlNode.elem _ attrs children) => fromElemTestSuite attrs children
  | _ => none

/-- `quick_xml::de::from_str::<TestSuites>` modelled (see `deTestSuite`). -/
def deTestSuites (xml : List Char) : Option TestSuites :=
  match parseDocument xml with
  | some (XmlNode.elem _ attrs children) => fromElemTestSuites attrs children
  | _ => none

/-- `parse_str` from the source: detect the root convention; under the
bare-suite convention deserialize one `TestSuite` and synthesize the report
with the suite's own totals; otherwise deserialize a `TestSuites`. -/
def parse_str (xml : List Char) : Option TestSuites :=
  if root_is_testsuite xml then
    match deTestSuite xml with
    | some suite =>
      some { tests := some suite.tests, failures := some suite.failures,
             errors := some suite.errors, skipped := suite.skipped,
             suites := [suite] }
    | none => none
  else deTestSuites xml

/-- The number of child `testsuite` elements of the document's root. -/
def testsuiteChildCount (xml : List Char) : Option Nat :=
  match parseDocument xml with
  | some (XmlNode.elem _ _ children) =>
    some (elemPairsNamed nmTestsuite children).length
  | _ => none

/-- Embedding of Rust `Path::extension` on a file name: `none` without an
embedded `.` (a leading `.` alone marks a hidden file, not an extension),
otherwise the portion after the final `.`. -/
def fileExtension (fname : List Char) : Option (List Char) :=
  let s := match fname with
    | c :: rest => if c = '.' then rest else fname
    | [] => fname
  if '.' ∈ s then
    some ((s.reverse.takeWhile (fun c => decide (c ≠ '.'))).reverse)
  else none

/-- The recognized report extension `xml`. -/
def xmlExt : List Char := ['x', 'm', 'l']

/-- The collection loop of `parse_directory` from the source: for each
directory entry (filename, contents), entries with extension `xml` are
parsed — a parse failure is propagated immediately (`?`), aborting the
whole scan — and others are skipped. -/
def collectEntries :
    List (List Char × List Char) → Option (List (List Char × TestSuites))
  | [] => some []
  | (nm, content) :: rest =>
    if fileExtension nm = some xmlExt then
      match parse_str content with
      | some ts => (collectEntries rest).map (fun acc => (nm, ts) :: acc)
      | none => none
    else collectEntries rest

/-- Byte/codepoint lexicographic order on strings (Rust `str::cmp` is
byte-wise on UTF-8, which coincides with code-point order). -/
def leStr : List Char → List Char → Bool
  | [], _ => true
  | _ :: _, [] => false
  | a :: as, b :: bs =>
    if a.toNat < b.toNat then true
    else if b.toNat < a.toNat then false
    else leStr as bs

/-- The comparator of the final `sort_by` in `parse_directory`: ascending
by filename. -/
def dirEntryLe (a b : List Char × TestSuites) : Prop :=
  leStr a.1 b.1 = true

instance : DecidableRel dirEntryLe :=
  fun a b => inferInstanceAs (Decidable (leStr a.1 b.1 = true))

/-- `parse_directory` from the source, over an abstract directory listing
(filename, contents): collect recognized entries, then sort by filename. -/
def parse_directory (entries : List (List Char × List Char)) :
    Option (List (List Char × TestSuites)) :=
  (collectEntries entries).map (fun results => List.insertionSort dirEntryLe results)

/-- Concrete wrapper-root sample document (for witnesses). -/
def wrapperDoc : List Char :=
  "<testsuites><testsuite tests=\"2\" failures=\"1\"><testcase name=\"a\"/></testsuite><testsuite tests=\"3\"></testsuite></testsuites>".toList

/-- The report parsed from `wrapperDoc`. -/
def wrapperDocReport : TestSuites :=
  { suites :=
      [{ tests := 2, failures := 1,
         test_cases := [{ name := ['a'] }] },
       { tests := 3 }] }

/-- Concrete bare-suite-root sample document (for witnesses). -/
def bareDoc : List Char :=
  "<testsuite tests=\"20\" failures=\"8\" errors=\"2\"><testcase name=\"x\"/></testsuite>".toList

/-- The suite parsed from `bareDoc`. -/
def bareDocSuite : TestSuite :=
  { tests := 20, failures := 8, errors := 2,
    test_cases := [{ name := ['x'] }] }

/-- The report parsed from `bareDoc`. -/
def bareDocReport : TestSuites :=
  { tests := some 20, failures := some 8, errors := some 2, skipped := none,
    suites := [bareDocSuite] }

/-- A malformed document (for the directory-scan counterexample). -/
def badDoc : List Char := "<unclosed".toList

/-- Element name `testsuites` (the wrapper root). -/
def nmTestsuites : List Char :=
  ['t', 'e', 's', 't', 's', 'u', 'i', 't', 'e', 's']

/-- The five body-carrying child elements of a test case the free-text
rules apply to: failure, error and skipped bodies, system-out and
system-err text. -/
inductive BodyElem where
  | failureElem
  | errorElem
  | skippedElem
  | systemOutElem
  | systemErrElem
deriving DecidableEq, Repr

/-- The element name of each body-carrying element. -/
def bodyElemName : BodyElem → List Char
  | BodyElem.failureElem => nmFailure
  | BodyElem.errorElem => nmError
  | BodyElem.skippedElem => nmSkipped
  | BodyElem.systemOutElem => nmSystemOut
  | BodyElem.systemErrElem => nmSystemErr

/-- The prefix of the C9 document pair: a wrapper, one suite, one test
case, and the opening tag of the body-carrying element. -/
def c9OpenK (k : BodyElem) : List Char :=
  ("<testsuites><testsuite><testcase>".toList) ++
    ('<' :: (bodyElemName k ++ ['>']))

/-- The closing suffix of the C9 document pair, after its leading `<`. -/
def c9CloseTailK (k : BodyElem) : List Char :=
  '/' :: (bodyElemName k ++
    ('>' :: ("</testcase></testsuite></testsuites>".toList)))

/-- The closing suffix of the C9 document pair. -/
def c9CloseK (k : BodyElem) : List Char := '<' :: c9CloseTailK k

/-- The C9 document delivering a body as literal escaped text. -/
def c9DocEscapedK (k : BodyElem) (bs : List Char) : List Char :=
  c9OpenK k ++ escapeList bs ++ c9CloseK k

/-- The C9 document delivering the same body as a CDATA section. -/
def c9DocCDataK (k : BodyElem) (bs : List Char) : List Char :=
  c9OpenK k ++ ("<![CDATA[".toList) ++ bs ++ (']' :: ']' :: '>' :: c9CloseK k)

/-- The single test case of the C9 documents: the captured text lands in
the field the body-carrying element maps to. -/
def c9CaseK (k : BodyElem) (b : Option (List Char)) : TestCase :=
  match k with
  | BodyElem.failureElem => { failure := some { message := none, body := b } }
  | BodyElem.errorElem => { error := some { message := none, body := b } }
  | BodyElem.skippedElem => { skipped := some { message := b } }
  | BodyElem.systemOutElem => { system_out := b }
  | BodyElem.systemErrElem => { system_err := b }

/-- The single suite of the C9 documents. -/
def c9SuiteK (k : BodyElem) (b : Option (List Char)) : TestSuite :=
  { test_cases := [c9CaseK k b] }

/-- The report of the C9 documents: one suite, one case, the captured
text in the designated field. -/
def c9ReportK (k : BodyElem) (b : Option (List Char)) : TestSuites :=
  { suites := [c9SuiteK k b] }

/-- The raw token list of the C9 documents, parametrized by the token
delivering the body. -/
def c9RawToksK (k : BodyElem) (mid : RawTok) : List RawTok :=
  [RawTok.openTok nmTestsuites [] false, RawTok.openTok nmTestsuite [] false,
   RawTok.openTok nmTestcase [] false,
   RawTok.openTok (bodyElemName k) [] false,
   mid,
   RawTok.closeTok (bodyElemName k), RawTok.closeTok nmTestcase,
   RawTok.closeTok nmTestsuite, RawTok.closeTok nmTestsuites]

/-- The XML tree of the C9 documents. -/
def c9RootK (k : BodyElem) (bs : List Char) : XmlNode :=
  XmlNode.elem nmTestsuites []
    [XmlNode.elem nmTestsuite []
      [XmlNode.elem nmTestcase []
        [XmlNode.elem (bodyElemName k) [] [XmlNode.txt bs]]]]

/-- The report `parse_str` yields for `<testsuite/>`: the wrapper path on
a suite-named root with no `testsuite` children — zero suites, no copied
totals. -/
def emptyReport : TestSuites :=
  { tests := none, failures := none, errors := none, skipped := none,
    suites := [] }

/-- Directory-scan witness data: two recognized files out of
lexicographic order plus one unrecognized file. -/
def dirEntries : List (List Char × List Char) :=
  [("b.xml".toList, bareDoc), ("a.xml".toList, wrapperDoc),
   ("notes.txt".toList, badDoc)]

/-- The scan result for `dirEntries`: recognized files only, sorted. -/
def dirResult : List (List Char × TestSuites) :=
  [("a.xml".toList, wrapperDocReport), ("b.xml".toList, bareDocReport)]

end Ratunit

namespace Ratunit

/-- C1: For every Report, `total_passed()` equals the floor-at-zero
subtraction `max 0 (total_tests - total_failures - total_errors -
total_skipped)` (stated over `ℤ` so that "floor at zero, never negative or
wrapped" is literal), and it is zero whenever the summed failure/error/skip
counts meet or exceed the summed test count. -/
theorem total_passed_saturating (ts : TestSuites) :
    ((ts.total_passed : Int) =
      max 0 ((ts.total_tests : Int) - ts.total_failures - ts.total_errors -
        ts.total_skipped)) ∧
    (ts.total_tests ≤ ts.total_failures + ts.total_errors + ts.total_skipped →
      ts.total_passed = 0) := by
  simp only [TestSuites.total_passed]
  omega

/-- Witness for C1 at a concrete over-declared report: one suite declaring
2 tests but 3 failures yields zero passed. -/
theorem total_passed_saturating_witness :
    ((overDeclaredReport.total_passed : Int) =
      max 0 ((overDeclaredReport.total_tests : Int) -
        overDeclaredReport.total_failures - overDeclaredReport.total_errors -
        overDeclaredReport.total_skipped)) ∧
    overDeclaredReport.total_passed = 0 :=
  ⟨(total_passed_saturating overDeclaredReport).1,
    (total_passed_saturating overDeclaredReport).2 (by decide)⟩

/-- C2: the four aggregation accessors each equal the straight sum of the
corresponding suite-level field across the report's suite list (skipped with
absence treated as zero). -/
theorem totals_are_suite_sums (ts : TestSuites) :
    ts.total_tests = specSumTests ts.suites ∧
    ts.total_failures = specSumFailures ts.suites ∧
    ts.total_errors = specSumErrors ts.suites ∧
    ts.total_skipped = specSumSkipped ts.suites := by
  refine ⟨?_, ?_, ?_, ?_⟩
  · unfold TestSuites.total_tests
    induction ts.suites with
    | nil => rfl
    | cons s rest ih => simp [specSumTests, List.sum_cons, ih]
  · unfold TestSuites.total_failures
    induction ts.suites with
    | nil => rfl
    | cons s rest ih => simp [specSumFailures, List.sum_cons, ih]
  · unfold TestSuites.total_errors
    induction ts.suites with
    | nil => rfl
    | cons s rest ih => simp [specSumErrors, List.sum_cons, ih]
  · unfold TestSuites.total_skipped
    induction ts.suites with
    | nil => rfl
    | cons s rest ih => simp [specSumSkipped, List.sum_cons, ih]

/-- C3: outcome classification is total (it always returns one of the four
variants, by type) and is decided by first-match precedence over the three
markers: Failed iff a failure marker is present; Errored iff no failure but
an error marker; Skipped iff neither but a skipped marker; Passed iff no
marker at all. -/
theorem status_classification (tc : TestCase) :
    (tc.status = TestStatus.Failed ↔ tc.failure.isSome) ∧
    (tc.status = TestStatus.Errored ↔
      tc.failure = none ∧ tc.error.isSome) ∧
    (tc.status = TestStatus.Skipped ↔
      tc.failure = none ∧ tc.error = none ∧ tc.skipped.isSome) ∧
    (tc.status = TestStatus.Passed ↔
      tc.failure = none ∧ tc.error = none ∧ tc.skipped = none) := by
  unfold TestCase.status
  rcases hf : tc.failure <;> rcases he : tc.error <;> rcases hs : tc.skipped <;>
    simp [Option.isSome]

/-- C5 counterexample: a test case whose only marker is a Skipped element
with no message, inside a suite with no `skipped` attribute, classifies as
Skipped, yet `total_skipped()` is 0 — the case does NOT contribute to
`total_skipped()`, contrary to the claim. -/
theorem case_skipped_counterexample :
    skippedOnlyCase.status = TestStatus.Skipped ∧
    skippedOnlyReport.total_skipped = 0 := by
  decide

/-- C5 amended: such a case classifies as Skipped, but it does not
contribute to `total_skipped()`: the suite-level `skipped` field defaults to
zero independent of case-level markers, so a report whose suites all lack
the `skipped` attribute has `total_skipped() = 0` no matter how many cases
carry Skipped markers. -/
theorem case_skipped_not_counted (tc : TestCase) (rpt : TestSuites)
    (h1 : tc.failure = none) (h2 : tc.error = none)
    (h3 : tc.skipped = some { message := none })
    (h4 : ∀ s ∈ rpt.suites, s.skipped = none) :
    tc.status = TestStatus.Skipped ∧ rpt.total_skipped = 0 := by
  constructor
  · unfold TestCase.status
    simp [h1, h2, h3]
  · unfold TestSuites.total_skipped
    have aux : ∀ l : List TestSuite, (∀ s ∈ l, s.skipped = none) →
        (l.map (fun s => s.skipped.getD 0)).sum = 0 := by
      intro l
      induction l with
      | nil => intro _; rfl
      | cons s rest ih =>
        intro hl
        simp [hl s (by simp), ih (fun x hx => hl x (by simp [hx]))]
    exact aux rpt.suites h4

/-- Witness for C5's amended theorem at the concrete counterexample data. -/
theorem case_skipped_not_counted_witness :
    skippedOnlyCase.status = TestStatus.Skipped ∧
    skippedOnlyReport.total_skipped = 0 :=
  case_skipped_not_counted skippedOnlyCase skippedOnlyReport (by decide)
    (by decide) (by decide) (by decide)

/-- C10: the five aggregate accessors depend only on the suite list; two
reports with equal suite lists agree on all five totals regardless of their
own declared `tests`/`failures`/`errors`/`skipped` attribute fields. -/
theorem totals_ignore_declared_attrs (r₁ r₂ : TestSuites)
    (h : r₁.suites = r₂.suites) :
    r₁.total_tests = r₂.total_tests ∧
    r₁.total_failures = r₂.total_failures ∧
    r₁.total_errors = r₂.total_errors ∧
    r₁.total_skipped = r₂.total_skipped ∧
    r₁.total_passed = r₂.total_passed := by
  have ht : r₁.total_tests = r₂.total_tests := by
    unfold TestSuites.total_tests; rw [h]
  have hf : r₁.total_failures = r₂.total_failures := by
    unfold TestSuites.total_failures; rw [h]
  have he : r₁.total_errors = r₂.total_errors := by
    unfold TestSuites.total_errors; rw [h]
  have hs : r₁.total_skipped = r₂.total_skipped := by
    unfold TestSuites.total_skipped; rw [h]
  refine ⟨ht, hf, he, hs, ?_⟩
  simp only [TestSuites.total_passed, ht, hf, he, hs]

/-- Witness for C10: two concrete reports sharing a suite list but with
different declared wrapper totals have identical aggregates. -/
theorem totals_ignore_declared_attrs_witness :
    declaredJunkReport.total_tests = undeclaredReport.total_tests ∧
    declaredJunkReport.total_failures = undeclaredReport.total_failures ∧
    declaredJunkReport.total_errors = undeclaredReport.total_errors ∧
    declaredJunkReport.total_skipped = undeclaredReport.total_skipped ∧
    declaredJunkReport.total_passed = undeclaredReport.total_passed :=
  totals_ignore_declared_attrs declaredJunkReport undeclaredReport (by decide)

/-- C8 counterexample: the document `<testsuite/>` has first element tag
`testsuite`, yet the source's detection classifies it as the wrapper
convention (`root_is_testsuite` is `false`), because the detection only
accepts the tag when followed by a space or `>`. -/
theorem detection_first_tag_counterexample :
    specFirstElementTag ("<testsuite/>".toList) =
      some ("testsuite".toList) ∧
    root_is_testsuite ("<testsuite/>".toList) = false := by
  decide

/-- `strStartsWith s (p :: ps)` forces `s` to start with `p`. -/
theorem strStartsWith_cons {s : List Char} {p : Char} {ps : List Char}
    (h : strStartsWith s (p :: ps) = true) : ∃ t, s = p :: t := by
  cases s with
  | nil => simp [strStartsWith] at h
  | cons c s' =>
    refine ⟨s', ?_⟩
    by_cases hc : c = p
    · rw [hc]
    · simp [strStartsWith, hc] at h

/-- `findChar` past a block with no occurrence finds the head of the rest. -/
theorem findChar_append {c : Char} {l r : List Char} (hl : c ∉ l)
    (hr : ∃ t, r = c :: t) : findChar c (l ++ r) = some l.length := by
  induction l with
  | nil =>
    obtain ⟨t, rfl⟩ := hr
    simp [findChar]
  | cons x xs ih =>
    have hx : x ≠ c := fun hxc => hl (hxc ▸ List.mem_cons_self x xs)
    have hxs : c ∉ xs := fun hm => hl (List.mem_cons_of_mem x hm)
    simp [findChar, hx, ih hxs]

/-- C8 amended: detection is string-prefix-based, and classifies as the
bare-suite convention the documents whose (whitespace-trimmed) text starts
with `<testsuite` followed immediately by a space or `>`, or starts with
`<?` with the second `<` beginning such a `<testsuite` prefix.  (The
original claim fails for first tags not delimited by space or `>`, e.g. the
self-closing `<testsuite/>`.) -/
theorem root_is_testsuite_amended (xml : List Char)
    (h : strStartsWith (trimStartChars xml) tsOpenSpace = true ∨
      strStartsWith (trimStartChars xml) tsOpenGt = true ∨
      ∃ mid rest, trimStartChars xml = '<' :: '?' :: (mid ++ rest) ∧
        '<' ∉ mid ∧
        (strStartsWith rest tsOpenSpace = true ∨
          strStartsWith rest tsOpenGt = true)) :
    root_is_testsuite xml = true := by
  rcases h with h | h | ⟨mid, rest, htrim, hmid, hts⟩
  · simp [root_is_testsuite, h]
  · simp [root_is_testsuite, h]
  · have hrest : ∃ t, rest = '<' :: t := by
      rcases hts with h' | h'
      · exact strStartsWith_cons h'
      · exact strStartsWith_cons h'
    have h1 : strStartsWith ('<' :: '?' :: (mid ++ rest)) ['<', '?'] = true := by
      simp [strStartsWith]
    have h2 : findChar '<' ('<' :: '?' :: (mid ++ rest)) = some 0 := by
      simp [findChar]
    have h3 : findChar '<' ('?' :: (mid ++ rest)) = some (mid.length + 1) := by
      have hq : ('?' : Char) ≠ '<' := by decide
      simp [findChar, hq, findChar_append hmid hrest]
    have h4 : ('<' :: '?' :: (mid ++ rest)).drop (0 + 1 + (mid.length + 1)) =
        rest := by
      have he : 0 + 1 + (mid.length + 1) = mid.length + 2 := by omega
      rw [he]
      show (mid ++ rest).drop mid.length = rest
      exact List.drop_left mid rest
    simp only [root_is_testsuite, htrim]
    rw [h2]
    simp only [Option.some_bind]
    have hdrop1 : ('<' :: '?' :: (mid ++ rest)).drop (0 + 1) =
        '?' :: (mid ++ rest) := rfl
    rw [hdrop1, h3]
    simp only [Option.map_some']
    rw [h4, h1]
    rcases hts with h' | h' <;> simp [h']

/-- Witness for C8's amended theorem: a document with an XML declaration
followed by a bare `<testsuite>` root is detected as bare-suite. -/
theorem root_is_testsuite_amended_witness :
    root_is_testsuite ("<?xml version=\"1.0\"?>\n<testsuite tests=\"1\">".toList) =
      true :=
  root_is_testsuite_amended _
    (Or.inr (Or.inr ⟨"xml version=\"1.0\"?>\n".toList,
      "<testsuite tests=\"1\">".toList, by decide, by decide,
      Or.inl (by decide)⟩))

/-- A successful `optionMapM` preserves the list length. -/
theorem optionMapM_length {f : α → Option β} :
    ∀ {l : List α} {l' : List β}, optionMapM f l = some l' → l'.length = l.length := by
  intro l
  induction l with
  | nil =>
    intro l' h
    simp [optionMapM] at h
    simp [← h]
  | cons a rest ih =>
    intro l' h
    simp only [optionMapM] at h
    cases hfa : f a with
    | none => rw [hfa] at h; simp at h
    | some b =>
      rw [hfa] at h
      cases hrest : optionMapM f rest with
      | none => rw [hrest] at h; simp at h
      | some bs =>
        rw [hrest] at h
        simp at h
        simp [← h, ih hrest]

/-- C4 amended: for every document `parse_str` accepts — if the prefix
DETECTION (not the actual root element; see
`parse_str_bare_root_counterexample`) classified it as a bare suite, the
report holds exactly that one deserialized suite with its own totals copied
into the declared fields; if detection classified it as a wrapper, the
report's suite count equals the number of `testsuite` children of the
document's root element. -/
theorem parse_str_root_convention (xml : List Char) (r : TestSuites)
    (h : parse_str xml = some r) :
    (root_is_testsuite xml = true →
      ∃ s, deTestSuite xml = some s ∧
        r = { tests := some s.tests, failures := some s.failures,
              errors := some s.errors, skipped := s.skipped,
              suites := [s] }) ∧
    (root_is_testsuite xml = false →
      testsuiteChildCount xml = some r.suites.length) := by
  constructor
  · intro hdet
    unfold parse_str at h
    rw [hdet] at h
    simp only [if_true] at h
    cases hd : deTestSuite xml with
    | none => rw [hd] at h; simp at h
    | some s =>
      rw [hd] at h
      simp at h
      exact ⟨s, rfl, h.symm⟩
  · intro hdet
    unfold parse_str at h
    rw [hdet] at h
    simp only [Bool.false_eq_true, if_false] at h
    unfold deTestSuites at h
    cases hp : parseDocument xml with
    | none => rw [hp] at h; simp at h
    | some node =>
      rw [hp] at h
      cases node with
      | txt s => simp at h
      | elem nm attrs children =>
        replace h : fromElemTestSuites attrs children = some r := h
        unfold testsuiteChildCount
        rw [hp]
        show some (elemPairsNamed nmTestsuite children).length =
          some r.suites.length
        unfold fromElemTestSuites at h
        split at h
        · rename_i tests failures errors skipped suites ht hf he hs hsu
          injection h with h2
          rw [← h2]
          show some (elemPairsNamed nmTestsuite children).length =
            some suites.length
          rw [optionMapM_length hsu]
        · simp at h

set_option maxRecDepth 16384

/-- Witness for C4: the bare-suite sample copies its totals into the
report, and the wrapper sample's suite count matches its two `testsuite`
children. -/
theorem parse_str_root_convention_witness :
    (∃ s, deTestSuite bareDoc = some s ∧
      bareDocReport = { tests := some s.tests, failures := some s.failures,
                        errors := some s.errors, skipped := s.skipped,
                        suites := [s] }) ∧
    testsuiteChildCount wrapperDoc = some wrapperDocReport.suites.length :=
  ⟨(parse_str_root_convention bareDoc bareDocReport (by decide)).1 (by decide),
    (parse_str_root_convention wrapperDoc wrapperDocReport (by decide)).2
      (by decide)⟩

/-- C6 counterexample: a directory scan whose first recognized file fails
to parse returns an error even though the second recognized file parses on
its own — the failure does prevent the other file from being collected. -/
theorem scan_abort_counterexample :
    (parse_str bareDoc).isSome = true ∧
    parse_directory
      [("a.xml".toList, badDoc), ("b.xml".toList, bareDoc)] = none := by
  constructor
  · decide
  · decide

/-- C6 amended: a parse failure for any recognized file aborts the entire
directory scan — no partial results are returned — and in the single-file
case the failure is likewise fatal (the same propagation). -/
theorem scan_abort_on_parse_failure (entries : List (List Char × List Char))
    (nm content : List Char) (hmem : (nm, content) ∈ entries)
    (hext : fileExtension nm = some xmlExt)
    (hfail : parse_str content = none) :
    parse_directory entries = none := by
  have hc : collectEntries entries = none := by
    induction entries with
    | nil => simp at hmem
    | cons entry rest ih =>
      rcases List.mem_cons.mp hmem with he | he
      · rw [← he]
        simp [collectEntries, hext, hfail]
      · obtain ⟨n2, c2⟩ := entry
        by_cases hx : fileExtension n2 = some xmlExt
        · simp only [collectEntries, hx, if_true]
          cases hp : parse_str c2 with
          | none => rfl
          | some ts => rw [ih he]; rfl
        · simp only [collectEntries, hx, if_false]
          exact ih he
  unfold parse_directory
  rw [hc]
  rfl

/-- Witness for C6's amended theorem: the single-file case — one recognized
file that fails to parse makes the scan fail. -/
theorem scan_abort_on_parse_failure_witness :
    parse_directory [("x.xml".toList, badDoc)] = none :=
  scan_abort_on_parse_failure _ ("x.xml".toList) badDoc (by decide)
    (by decide) (by decide)

/-- `leStr` is total. -/
theorem leStr_total : ∀ x y : List Char, leStr x y = true ∨ leStr y x = true := by
  intro x
  induction x with
  | nil => intro y; left; rfl
  | cons a as ih =>
    intro y
    cases y with
    | nil => right; rfl
    | cons b bs =>
      by_cases hab : a.toNat < b.toNat
      · left; simp [leStr, hab]
      · by_cases hba : b.toNat < a.toNat
        · right; simp [leStr, hba]
        · rcases ih bs with h | h
          · left; simp [leStr, hab, hba, h]
          · right; simp [leStr, hab, hba, h]

/-- `leStr` is transitive. -/
theorem leStr_trans : ∀ x y z : List Char,
    leStr x y = true → leStr y z = true → leStr x z = true := by
  intro x
  induction x with
  | nil => intro y z _ _; rfl
  | cons a as ih =>
    intro y z hxy hyz
    cases y with
    | nil => simp [leStr] at hxy
    | cons b bs =>
      cases z with
      | nil => simp [leStr] at hyz
      | cons c cs =>
        simp only [leStr] at hxy hyz ⊢
        split_ifs at hxy hyz ⊢ with h1 h2 h3 h4 h5 h6 <;>
          first
          | rfl
          | omega
          | (exact ih bs cs hxy hyz)

/-- Names collected by a successful scan are exactly the recognized
filenames, in directory order. -/
theorem collectEntries_names :
    ∀ {entries : List (List Char × List Char)}
      {res : List (List Char × TestSuites)},
      collectEntries entries = some res →
      res.map Prod.fst =
        (entries.filter
          (fun e => decide (fileExtension e.1 = some xmlExt))).map Prod.fst := by
  intro entries
  induction entries with
  | nil =>
    intro res h
    simp [collectEntries] at h
    simp [← h]
  | cons entry rest ih =>
    intro res h
    obtain ⟨n2, c2⟩ := entry
    by_cases hx : fileExtension n2 = some xmlExt
    · simp only [collectEntries, hx, if_true] at h
      cases hp : parse_str c2 with
      | none => rw [hp] at h; simp at h
      | some ts =>
        rw [hp] at h
        cases hrest : collectEntries rest with
        | none => rw [hrest] at h; simp at h
        | some acc =>
          rw [hrest] at h
          simp at h
          rw [← h]
          simp [List.filter_cons, hx, ih hrest]
    · simp only [collectEntries, hx, if_false] at h
      simp [List.filter_cons, hx, ih h]

/-- C7: a successful directory scan returns exactly one entry per
recognized (`.xml`) file — non-matching entries excluded — sorted ascending
by filename in byte/codepoint order, the entry names being a permutation of
the recognized filenames. -/
theorem directory_scan_sorted (entries : List (List Char × List Char))
    (res : List (List Char × TestSuites))
    (h : parse_directory entries = some res) :
    res.length =
      (entries.filter
        (fun e => decide (fileExtension e.1 = some xmlExt))).length ∧
    List.Sorted dirEntryLe res ∧
    List.Perm (res.map Prod.fst)
      ((entries.filter
        (fun e => decide (fileExtension e.1 = some xmlExt))).map Prod.fst) := by
  haveI htot : IsTotal (List Char × TestSuites) dirEntryLe :=
    ⟨fun a b => leStr_total a.1 b.1⟩
  haveI htr : IsTrans (List Char × TestSuites) dirEntryLe :=
    ⟨fun a b c => leStr_trans a.1 b.1 c.1⟩
  unfold parse_directory at h
  cases hc : collectEntries entries with
  | none => rw [hc] at h; simp at h
  | some res0 =>
    rw [hc] at h
    simp at h
    have hperm : List.Perm (List.insertionSort dirEntryLe res0) res0 :=
      List.perm_insertionSort dirEntryLe res0
    have hnames := collectEntries_names hc
    refine ⟨?_, ?_, ?_⟩
    · rw [← h, hperm.length_eq]
      have : res0.length = (res0.map Prod.fst).length := by
        rw [List.length_map]
      rw [this, hnames, List.length_map]
    · rw [← h]
      exact List.sorted_insertionSort dirEntryLe res0
    · rw [← h]
      exact (hperm.map Prod.fst).trans (by rw [hnames])

/-- Witness for C7 at a concrete directory with two recognized files given
out of order plus one unrecognized file. -/
theorem directory_scan_sorted_witness :
    dirResult.length =
      (dirEntries.filter
        (fun e => decide (fileExtension e.1 = some xmlExt))).length ∧
    List.Sorted dirEntryLe dirResult ∧
    List.Perm (dirResult.map Prod.fst)
      ((dirEntries.filter
        (fun e => decide (fileExtension e.1 = some xmlExt))).map Prod.fst) :=
  directory_scan_sorted dirEntries dirResult (by decide)

/-- Escaping a character never yields the empty string. -/
theorem escapeChar_ne_nil (c : Char) : escapeChar c ≠ [] := by
  unfold escapeChar
  split_ifs <;> simp

/-- Escaping a nonempty string yields a nonempty string. -/
theorem escapeList_eq_nil {bs : List Char} : escapeList bs = [] ↔ bs = [] := by
  cases bs with
  | nil => simp [escapeList]
  | cons c rest =>
    simp only [escapeList]
    constructor
    · intro h
      exact absurd (List.append_eq_nil.mp h).1 (escapeChar_ne_nil c)
    · intro h
      simp at h

/-- Escaping a character never produces a `<`. -/
theorem lt_not_mem_escapeChar (c : Char) : '<' ∉ escapeChar c := by
  unfold escapeChar
  split_ifs with h1 h2 h3 h4 h5
  · decide
  · decide
  · decide
  · decide
  · decide
  · simp
    exact fun heq => h1 heq.symm

/-- Escaped text contains no `<`. -/
theorem lt_not_mem_escapeList (bs : List Char) : '<' ∉ escapeList bs := by
  induction bs with
  | nil => simp [escapeList]
  | cons c rest ih =>
    simp only [escapeList, List.mem_append]
    rintro (h | h)
    · exact lt_not_mem_escapeChar c h
    · exact ih h

/-- Unfolding `unescape` at the `lt` entity. -/
theorem unescape_lt (X : List Char) :
    unescape ('&' :: 'l' :: 't' :: ';' :: X) =
      (unescape X).map (fun u => '<' :: u) := by
  rw [unescape.eq_def]
  simp

/-- Unfolding `unescape` at the `gt` entity. -/
theorem unescape_gt (X : List Char) :
    unescape ('&' :: 'g' :: 't' :: ';' :: X) =
      (unescape X).map (fun u => '>' :: u) := by
  rw [unescape.eq_def]
  simp

/-- Unfolding `unescape` at the `amp` entity. -/
theorem unescape_amp (X : List Char) :
    unescape ('&' :: 'a' :: 'm' :: 'p' :: ';' :: X) =
      (unescape X).map (fun u => '&' :: u) := by
  rw [unescape.eq_def]
  simp

/-- Unfolding `unescape` at the `apos` entity. -/
theorem unescape_apos (X : List Char) :
    unescape ('&' :: 'a' :: 'p' :: 'o' :: 's' :: ';' :: X) =
      (unescape X).map (fun u => '\'' :: u) := by
  rw [unescape.eq_def]
  simp

/-- Unfolding `unescape` at the `quot` entity. -/
theorem unescape_quot (X : List Char) :
    unescape ('&' :: 'q' :: 'u' :: 'o' :: 't' :: ';' :: X) =
      (unescape X).map (fun u => '"' :: u) := by
  rw [unescape.eq_def]
  simp

/-- Unfolding `unescape` at an ordinary character. -/
theorem unescape_cons_ne (c : Char) (X : List Char) (h : ¬ c = '&') :
    unescape (c :: X) = (unescape X).map (fun u => c :: u) := by
  rw [unescape.eq_def]
  simp [h]

/-- Unescaping inverts escaping. -/
theorem unescape_escapeList (bs : List Char) :
    unescape (escapeList bs) = some bs := by
  induction bs with
  | nil => rfl
  | cons c rest ih =>
    simp only [escapeList]
    by_cases h1 : c = '<'
    · subst h1
      rw [show escapeChar '<' = ['&', 'l', 't', ';'] from rfl]
      simp only [List.cons_append, List.nil_append]
      rw [unescape_lt, ih]
      rfl
    · by_cases h2 : c = '>'
      · subst h2
        rw [show escapeChar '>' = ['&', 'g', 't', ';'] from rfl]
        simp only [List.cons_append, List.nil_append]
        rw [unescape_gt, ih]
        rfl
      · by_cases h3 : c = '&'
        · subst h3
          rw [show escapeChar '&' = ['&', 'a', 'm', 'p', ';'] from rfl]
          simp only [List.cons_append, List.nil_append]
          rw [unescape_amp, ih]
          rfl
        · by_cases h4 : c = '\''
          · subst h4
            rw [show escapeChar '\'' = ['&', 'a', 'p', 'o', 's', ';'] from rfl]
            simp only [List.cons_append, List.nil_append]
            rw [unescape_apos, ih]
            rfl
          · by_cases h5 : c = '"'
            · subst h5
              rw [show escapeChar '"' = ['&', 'q', 'u', 'o', 't', ';'] from rfl]
              simp only [List.cons_append, List.nil_append]
              rw [unescape_quot, ih]
              rfl
            · rw [show escapeChar c = [c] from by
                unfold escapeChar
                simp [h1, h2, h3, h4, h5]]
              simp only [List.cons_append, List.nil_append]
              rw [unescape_cons_ne c _ h3, ih]
              rfl

/-- The tokenizer accumulates `<`-free text verbatim. -/
theorem tokGo_text_run (s : List Char) : ∀ (acc rest : List Char), '<' ∉ s →
    tokGo (TkMode.text acc) (s ++ rest) =
      tokGo (TkMode.text (s.reverse ++ acc)) rest := by
  induction s with
  | nil => intro acc rest _; simp
  | cons c s' ih =>
    intro acc rest hmem
    have hc : ¬ c = '<' := fun h => hmem (h ▸ List.mem_cons_self c s')
    have hmem' : '<' ∉ s' := fun h => hmem (List.mem_cons_of_mem c h)
    simp only [List.cons_append]
    rw [show tokGo (TkMode.text acc) (c :: (s' ++ rest)) =
        if c = '<' then
          (if acc = [] then tokGo (TkMode.tag [] none) (s' ++ rest)
           else (tokGo (TkMode.tag [] none) (s' ++ rest)).map
             (fun ts => RawTok.textTok acc.reverse :: ts))
        else tokGo (TkMode.text (c :: acc)) (s' ++ rest) from by
      rw [tokGo.eq_def]]
    rw [if_neg hc, ih (c :: acc) rest hmem']
    simp [List.append_assoc]

/-- `containsCDEnd` is monotone under dropping the head. -/
theorem containsCDEnd_cons_false {c : Char} {rest : List Char}
    (h : containsCDEnd (c :: rest) = false) : containsCDEnd rest = false := by
  simp only [containsCDEnd, Bool.or_eq_false_iff] at h
  exact h.2

/-- One unfolding of the tokenizer in CDATA mode. -/
theorem tokGo_cdata_step (acc : List Char) (p : Nat) (c : Char)
    (rest : List Char) :
    tokGo (TkMode.cdata acc p) (c :: rest) =
      if c = ']' then
        if p = 2 then tokGo (TkMode.cdata (']' :: acc) 2) rest
        else tokGo (TkMode.cdata acc (p + 1)) rest
      else if c = '>' then
        if p = 2 then
          (tokGo (TkMode.text []) rest).map
            (fun ts => RawTok.cdataTok acc.reverse :: ts)
        else tokGo (TkMode.cdata ('>' :: (List.replicate p ']' ++ acc)) 0) rest
      else tokGo (TkMode.cdata (c :: (List.replicate p ']' ++ acc)) 0) rest := by
  rw [tokGo.eq_def]

/-- The tokenizer captures CDATA content verbatim up to the first `]]>`
terminator: starting in CDATA mode with `p ≤ 2` pending `]` characters, if
the pending characters followed by `bs` contain no `]]>`, the scan consumes
`bs ++ "]]>"` and emits the accumulated content. -/
theorem tokGo_cdata_run (bs : List Char) : ∀ (p : Nat) (acc rest : List Char),
    p ≤ 2 → containsCDEnd (List.replicate p ']' ++ bs) = false →
    tokGo (TkMode.cdata acc p) (bs ++ ']' :: ']' :: '>' :: rest) =
      (tokGo (TkMode.text []) rest).map
        (fun ts =>
          RawTok.cdataTok (acc.reverse ++ List.replicate p ']' ++ bs) :: ts) := by
  induction bs with
  | nil =>
    intro p acc rest hp hcd
    interval_cases p
    · simp [tokGo_cdata_step, List.replicate]
    · simp [tokGo_cdata_step, List.replicate]
    · simp [tokGo_cdata_step, List.replicate]
  | cons c tl ih =>
    intro p acc rest hp hcd
    rw [List.cons_append, tokGo_cdata_step]
    by_cases hc1 : c = ']'
    · rw [if_pos hc1]
      by_cases hp2 : p = 2
      · rw [if_pos hp2]
        subst hp2
        subst hc1
        have hcd' : containsCDEnd (List.replicate 2 ']' ++ tl) = false := by
          have := hcd
          rw [show List.replicate 2 ']' ++ ']' :: tl =
              ']' :: (List.replicate 2 ']' ++ tl) from by
            simp [List.replicate]] at this
          exact containsCDEnd_cons_false this
        rw [ih 2 (']' :: acc) rest (le_refl 2) hcd']
        have : (']' :: acc).reverse ++ List.replicate 2 ']' ++ tl =
            acc.reverse ++ List.replicate 2 ']' ++ ']' :: tl := by
          simp [List.replicate]
        rw [this]
      · rw [if_neg hp2]
        subst hc1
        have hrep : List.replicate (p + 1) ']' ++ tl =
            List.replicate p ']' ++ ']' :: tl := by
          rw [List.replicate_succ']
          simp
        have hcd' : containsCDEnd (List.replicate (p + 1) ']' ++ tl) = false := by
          rw [hrep]; exact hcd
        rw [ih (p + 1) acc rest (by omega) hcd']
        rw [show acc.reverse ++ List.replicate (p + 1) ']' ++ tl =
            acc.reverse ++ List.replicate p ']' ++ ']' :: tl from by
          rw [List.append_assoc, List.append_assoc, hrep]]
    · rw [if_neg hc1]
      have hstep : containsCDEnd tl = false := by
        have h0 : containsCDEnd (c :: tl) = false := by
          interval_cases p
          · simpa using hcd
          · exact containsCDEnd_cons_false (by simpa [List.replicate] using hcd)
          · exact containsCDEnd_cons_false
              (containsCDEnd_cons_false (by simpa [List.replicate] using hcd))
        exact containsCDEnd_cons_false h0
      by_cases hc2 : c = '>'
      · rw [if_pos hc2]
        by_cases hp2 : p = 2
        · exfalso
          subst hp2
          subst hc2
          rw [show List.replicate 2 ']' ++ '>' :: tl =
              ']' :: ']' :: '>' :: tl from by simp [List.replicate]] at hcd
          simp [containsCDEnd] at hcd
        · rw [if_neg hp2]
          rw [ih 0 ('>' :: (List.replicate p ']' ++ acc)) rest (by omega)
            (by simpa using hstep)]
          subst hc2
          rw [show ('>' :: (List.replicate p ']' ++ acc)).reverse ++
              List.replicate 0 ']' ++ tl =
              acc.reverse ++ List.replicate p ']' ++ '>' :: tl from by
            simp [List.reverse_append, List.reverse_replicate, List.append_assoc]]
      · rw [if_neg hc2]
        rw [ih 0 (c :: (List.replicate p ']' ++ acc)) rest (by omega)
          (by simpa using hstep)]
        rw [show (c :: (List.replicate p ']' ++ acc)).reverse ++
            List.replicate 0 ']' ++ tl =
            acc.reverse ++ List.replicate p ']' ++ c :: tl from by
          simp [List.reverse_append, List.reverse_replicate, List.append_assoc]]

/-- Emitting accumulated text at a `<`. -/
theorem tokGo_text_emit (acc X : List Char) (h : acc ≠ []) :
    tokGo (TkMode.text acc) ('<' :: X) =
      (tokGo (TkMode.tag [] none) X).map
        (fun ts => RawTok.textTok acc.reverse :: ts) := by
  rw [show tokGo (TkMode.text acc) ('<' :: X) =
      if ('<' : Char) = '<' then
        (if acc = [] then tokGo (TkMode.tag [] none) X
         else (tokGo (TkMode.tag [] none) X).map
           (fun ts => RawTok.textTok acc.reverse :: ts))
      else tokGo (TkMode.text ('<' :: acc)) X from by
    rw [tokGo.eq_def]]
  rw [if_pos rfl, if_neg h]

/-- Assembling `parseDocument` from its three stages. -/
theorem parseDocument_eq (xml : List Char) (rtoks toks : List RawTok)
    (root : XmlNode) (h1 : tokGo (TkMode.text []) xml = some rtoks)
    (h2 : optionMapM normTok rtoks = some toks)
    (h3 : buildRoot toks = some root) : parseDocument xml = some root := by
  unfold parseDocument
  simp [h1, h2, h3]

/-- C4 counterexample: `<testsuite/>` has a bare suite element as root
(first element tag `testsuite`) and `parse_str` accepts it, yet the result
is a report with ZERO suites and no copied totals — the code branches on
its prefix heuristic, not on the actual root element. -/
theorem parse_str_bare_root_counterexample :
    specFirstElementTag ("<testsuite/>".toList) = some nmTestsuite ∧
    parse_str ("<testsuite/>".toList) = some emptyReport ∧
    emptyReport.suites.length = 0 := by
  refine ⟨by decide, by decide, by decide⟩

/-- Tokenizing the C9 opening tags (all five body-element variants). -/
theorem c9_tokGo_openK (k : BodyElem) : ∀ X,
    tokGo (TkMode.text []) (c9OpenK k ++ X) =
      Option.map (fun ts => RawTok.openTok nmTestsuites [] false :: ts)
        (Option.map (fun ts => RawTok.openTok nmTestsuite [] false :: ts)
          (Option.map (fun ts => RawTok.openTok nmTestcase [] false :: ts)
            (Option.map
              (fun ts => RawTok.openTok (bodyElemName k) [] false :: ts)
              (tokGo (TkMode.text []) X)))) := by
  cases k <;> exact fun X => rfl

/-- Tokenizing the C9 closing tags from tag mode. -/
theorem c9_tokGo_closeTagK (k : BodyElem) :
    tokGo (TkMode.tag [] none) (c9CloseTailK k) =
      some [RawTok.closeTok (bodyElemName k), RawTok.closeTok nmTestcase,
        RawTok.closeTok nmTestsuite, RawTok.closeTok nmTestsuites] := by
  cases k <;> rfl

/-- Tokenizing the C9 closing tags from text mode. -/
theorem c9_tokGo_closeTextK (k : BodyElem) :
    tokGo (TkMode.text []) (c9CloseK k) =
      some [RawTok.closeTok (bodyElemName k), RawTok.closeTok nmTestcase,
        RawTok.closeTok nmTestsuite, RawTok.closeTok nmTestsuites] := by
  cases k <;> rfl

/-- Building the C9 tree from its normalized tokens. -/
theorem c9_buildRootK (k : BodyElem) (bs : List Char) :
    buildRoot (c9RawToksK k (RawTok.textTok bs)) = some (c9RootK k bs) := by
  cases k <;> rfl

/-- Deserializing the C9 tree: the text content lands in the field the
body-carrying element maps to. -/
theorem c9_fromElemK (k : BodyElem) (bs : List Char) :
    fromElemTestSuites []
      [XmlNode.elem nmTestsuite []
        [XmlNode.elem nmTestcase []
          [XmlNode.elem (bodyElemName k) [] [XmlNode.txt bs]]]] =
      some (c9ReportK k (textContentOf [XmlNode.txt bs])) := by
  cases k <;> rfl

/-- Both C9 documents are classified wrapper-convention. -/
theorem c9_detect_escapedK (k : BodyElem) (bs : List Char) :
    root_is_testsuite (c9DocEscapedK k bs) = false := by
  cases k <;> rfl

/-- Both C9 documents are classified wrapper-convention (CDATA form). -/
theorem c9_detect_cdataK (k : BodyElem) (bs : List Char) :
    root_is_testsuite (c9DocCDataK k bs) = false := by
  cases k <;> rfl

/-- Tokenizing the escaped-text C9 document. -/
theorem c9_tok_escapedK (k : BodyElem) (bs : List Char) (hbs : bs ≠ []) :
    tokGo (TkMode.text []) (c9DocEscapedK k bs) =
      some (c9RawToksK k (RawTok.textTok (escapeList bs))) := by
  have hne : escapeList bs ≠ [] := fun h => hbs (escapeList_eq_nil.mp h)
  rw [show c9DocEscapedK k bs = c9OpenK k ++ (escapeList bs ++ c9CloseK k) from by
    simp [c9DocEscapedK, List.append_assoc]]
  rw [c9_tokGo_openK]
  rw [tokGo_text_run _ _ _ (lt_not_mem_escapeList bs)]
  rw [show c9CloseK k = '<' :: c9CloseTailK k from rfl]
  rw [tokGo_text_emit _ _ (by simpa using hne)]
  rw [c9_tokGo_closeTagK]
  simp [c9RawToksK]

/-- Tokenizing the CDATA C9 document. -/
theorem c9_tok_cdataK (k : BodyElem) (bs : List Char)
    (hcd : containsCDEnd bs = false) :
    tokGo (TkMode.text []) (c9DocCDataK k bs) =
      some (c9RawToksK k (RawTok.cdataTok bs)) := by
  have hcdopen : ∀ X, tokGo (TkMode.text []) ("<![CDATA[".toList ++ X) =
      tokGo (TkMode.cdata [] 0) X := fun X => rfl
  rw [show c9DocCDataK k bs = c9OpenK k ++ ("<![CDATA[".toList ++
      (bs ++ (']' :: ']' :: '>' :: c9CloseK k))) from by
    simp [c9DocCDataK, List.append_assoc]]
  rw [c9_tokGo_openK, hcdopen]
  rw [tokGo_cdata_run bs 0 [] (c9CloseK k) (by omega) (by simpa using hcd)]
  rw [c9_tokGo_closeTextK]
  simp [c9RawToksK]

/-- Normalizing the escaped-text C9 tokens: the text token unescapes back
to the delivered character sequence. -/
theorem c9_norm_escapedK (k : BodyElem) (bs : List Char) :
    optionMapM normTok (c9RawToksK k (RawTok.textTok (escapeList bs))) =
      some (c9RawToksK k (RawTok.textTok bs)) := by
  simp [optionMapM, normTok, c9RawToksK, unescape_escapeList]

/-- Normalizing the CDATA C9 tokens: the CDATA token becomes the same text
token. -/
theorem c9_norm_cdataK (k : BodyElem) (bs : List Char) :
    optionMapM normTok (c9RawToksK k (RawTok.cdataTok bs)) =
      some (c9RawToksK k (RawTok.textTok bs)) := by
  simp [optionMapM, normTok, c9RawToksK]

/-- C9: for each of the five body-carrying elements (failure, error,
skipped bodies, system-out, system-err), two documents delivering the same
character sequence — one as literal escaped text, one as a CDATA section —
parse to identical results; for a nonempty body the common result captures
exactly that sequence in the corresponding field.  (The side condition
excludes bodies containing `]]>`, which cannot be delivered by a single
CDATA section.) -/
theorem cdata_escaped_equivalent (k : BodyElem) (bs : List Char)
    (hcd : containsCDEnd bs = false) :
    parse_str (c9DocEscapedK k bs) = parse_str (c9DocCDataK k bs) ∧
    (bs ≠ [] →
      parse_str (c9DocEscapedK k bs) = some (c9ReportK k (some bs))) := by
  by_cases hbs : bs = []
  · subst hbs
    refine ⟨?_, fun h => absurd rfl h⟩
    cases k <;> decide
  · have hdocE : parseDocument (c9DocEscapedK k bs) = some (c9RootK k bs) :=
      parseDocument_eq _ _ _ _ (c9_tok_escapedK k bs hbs)
        (c9_norm_escapedK k bs) (c9_buildRootK k bs)
    have hdocC : parseDocument (c9DocCDataK k bs) = some (c9RootK k bs) :=
      parseDocument_eq _ _ _ _ (c9_tok_cdataK k bs hcd)
        (c9_norm_cdataK k bs) (c9_buildRootK k bs)
    have hbody : textContentOf [XmlNode.txt bs] = some bs := by
      simp only [textContentOf]
      rw [show (xmlTexts [XmlNode.txt bs]).flatten = bs from by
        rw [show xmlTexts [XmlNode.txt bs] = [bs] from rfl]
        simp]
      rw [if_neg hbs]
    have hPS : ∀ xml, root_is_testsuite xml = false →
        parseDocument xml = some (c9RootK k bs) →
        parse_str xml = some (c9ReportK k (some bs)) := by
      intro xml hdet hdoc
      unfold parse_str
      simp only [hdet, Bool.false_eq_true, if_false]
      unfold deTestSuites
      simp only [hdoc, c9RootK]
      rw [c9_fromElemK k bs, hbody]
    have hE := hPS _ (c9_detect_escapedK k bs) hdocE
    have hC := hPS _ (c9_detect_cdataK k bs) hdocC
    exact ⟨hE.trans hC.symm, fun _ => hE⟩

/-- Witness for C9 at the concrete body `a<b]]` (which exercises escaping
and the CDATA pending-bracket logic) delivered through an `error`
element. -/
theorem cdata_escaped_equivalent_witness :
    parse_str (c9DocEscapedK BodyElem.errorElem ("a<b]]".toList)) =
      parse_str (c9DocCDataK BodyElem.errorElem ("a<b]]".toList)) ∧
    ("a<b]]".toList ≠ [] →
      parse_str (c9DocEscapedK BodyElem.errorElem ("a<b]]".toList)) =
        some (c9ReportK BodyElem.errorElem (some ("a<b]]".toList)))) :=
  cdata_escaped_equivalent BodyElem.errorElem ("a<b]]".toList) (by decide)

end Ratunit
